import Mathlib

/-!
Verification of the pystog orchestration core (`src/pystog/pystog.py`) against its
natural-language specification.  Python/numpy float arrays are embedded as `List ℝ`
(real-valued, ignoring floating-point rounding, as usual for a shallow embedding of
numerical code); the methods of class `PyStoG` that the claims touch are translated
one-for-one below.  The `transformer` module (classes `Converter`, `Transformer`,
`FourierFilter`) is not part of the sources; where a claim depends on it, the missing
operation is modelled from the specification and the model is clearly marked.
-/

namespace PyStoG

/-- Python builtin `min` over a nonempty sequence (used as `min(q)` in
`qmin_correction`).  On the empty list Python raises; we return 0 there, a case no
claim exercises. -/
noncomputable def listMin : List ℝ → ℝ
  | [] => 0
  | x :: xs => xs.foldl min x

/-- Python builtin `max` over a nonempty sequence (used as `max(q)` in
`qmin_correction`). -/
noncomputable def listMax : List ℝ → ℝ
  | [] => 0
  | x :: xs => xs.foldl max x

/-- The body of the loop in `PyStoG.qmin_correction` (src/pystog/pystog.py lines
207-224): the correction value written to `correction[i]` for the output radius `r`,
given `qmin = min(q)`, `qmax = max(q)` and `sofq_qmin = sofq[0]`.  Translated
literally, including the `/ r / r / r` chains and the `2. * PiOverQmax`
denominators of the source. -/
noncomputable def correction_at (qmin qmax sofq_qmin : ℝ) (lorch : Bool) (r : ℝ) : ℝ :=
  let PiOverQmax := Real.pi / qmax
  let v := qmin * r
  if lorch then
    let vm := qmin * (r - PiOverQmax)
    let vp := qmin * (r + PiOverQmax)
    let term1 := (vm * Real.sin vm + Real.cos vm - 1) / (r - PiOverQmax) ^ 2
    let term2 := (vp * Real.sin vp + Real.cos vp - 1) / (r + PiOverQmax) ^ 2
    let F1 := (term1 - term2) / (2 * PiOverQmax)
    let F2 := (Real.sin vm / (r - PiOverQmax) - Real.sin vp / (r + PiOverQmax)) /
      (2 * PiOverQmax)
    (2 / Real.pi) * (F1 * sofq_qmin / qmin - F2)
  else
    let F1 := (2 * v * Real.sin v - (v * v - 2) * Real.cos v - 2) / r / r / r
    let F2 := (Real.sin v - v * Real.cos v) / r / r
    (2 / Real.pi) * (F1 * sofq_qmin / qmin - F2)

/-- `correction = np.zeros_like(gofr)` followed by `correction[i] = f (dr[i])` for
each index of `dr`, then `gofr + correction` elementwise: entries of `gofr` beyond
the length of `dr` receive a zero correction (numpy would raise were `dr` longer
than `gofr`; the claims only use equal lengths). -/
noncomputable def addCorrections (f : ℝ → ℝ) : List ℝ → List ℝ → List ℝ
  | gofr, [] => gofr
  | [], _ => []
  | g :: gofr, r :: dr => (g + f r) :: addCorrections f gofr dr

/-- Value-level translation of `PyStoG.qmin_correction(q, sofq, dr, gofr, lorch)`
(src/pystog/pystog.py lines 200-229): the sequence held by `gofr` after
`gofr += correction` runs, which is also the sequence the method returns. -/
noncomputable def qmin_correction (q sofq dr gofr : List ℝ) (lorch : Bool) : List ℝ :=
  addCorrections (correction_at (listMin q) (listMax q) (sofq.headD 0) lorch) gofr dr

/-- State-passing embedding of a call `ret = stog.qmin_correction(q, sofq, dr, gofr,
lorch)`.  In the source, `gofr += correction` is an in-place numpy update of the
array object the caller passed, and the method then returns that same array: the
first component is the content of the caller array after the call, the second the
returned sequence. -/
noncomputable def qmin_correction_call (q sofq dr gofr : List ℝ) (lorch : Bool) :
    List ℝ × List ℝ :=
  (qmin_correction q sofq dr gofr lorch, qmin_correction q sofq dr gofr lorch)

/-- The correction formula of the claim for the non-Lorch branch, written exactly in
the words of the spec: with `v = xmin * r`,
`F1 = (2 v sin v - (v^2 - 2) cos v - 2)/r^3`, `F2 = (sin v - v cos v)/r^2`, the
correction is `(2/pi) * (F1 * y0 / xmin - F2)` where `y0` is the boundary value. -/
noncomputable def claimCorrectionNonLorch (xmin y0 r : ℝ) : ℝ :=
  let v := xmin * r
  (2 / Real.pi) *
    (((2 * v * Real.sin v - (v ^ 2 - 2) * Real.cos v - 2) / r ^ 3) * y0 / xmin -
      (Real.sin v - v * Real.cos v) / r ^ 2)

/-- The correction formula of the claim for the Lorch branch, written exactly in the
words of the spec: with `vm = xmin*(r - pi/xmax)` and `vp = xmin*(r + pi/xmax)`,
`F1 = (((vm sin vm + cos vm - 1)/(r - pi/xmax)^2) - ((vp sin vp + cos vp - 1)/(r + pi/xmax)^2)) / (2 pi / xmax)`,
`F2 = ((sin vm)/(r - pi/xmax) - (sin vp)/(r + pi/xmax)) / (2 pi / xmax)`, and the
correction is `(2/pi) * (F1 * y0 / xmin - F2)`. -/
noncomputable def claimCorrectionLorch (xmin xmax y0 r : ℝ) : ℝ :=
  let vm := xmin * (r - Real.pi / xmax)
  let vp := xmin * (r + Real.pi / xmax)
  let F1 := ((vm * Real.sin vm + Real.cos vm - 1) / (r - Real.pi / xmax) ^ 2 -
      (vp * Real.sin vp + Real.cos vp - 1) / (r + Real.pi / xmax) ^ 2) /
    (2 * Real.pi / xmax)
  let F2 := (Real.sin vm / (r - Real.pi / xmax) - Real.sin vp / (r + Real.pi / xmax)) /
    (2 * Real.pi / xmax)
  (2 / Real.pi) * (F1 * y0 / xmin - F2)

/-- A pandas dataframe, reduced to what the claims need: an ordered collection of
named columns, each an index sequence paired with a value sequence.  The outer
index-join that `pd.concat` performs is immaterial to the claims settled here. -/
structure DataFrame where
  cols : List (String × (List ℝ × List ℝ))

/-- `PyStoG.add_to_dataframe(x, y, df, title)` (src/pystog/pystog.py lines
368-371): appends one named column to the dataframe. -/
def add_to_dataframe (x y : List ℝ) (df : DataFrame) (title : String) : DataFrame :=
  ⟨df.cols ++ [(title, (x, y))]⟩

/-- The three per-kind entry points of class `FourierFilter`, whose module is not
among the sources; `fourier_filter` below is verified for every possible behaviour
of these operations, so they are left abstract.  Argument order follows the call
sites: `(r, gr, q, sq, cutoff)`, returning `(q_ft, sq_ft, q, sq, r, gr)`. -/
structure FourierFilterOps where
  g_using_S : List ℝ → List ℝ → List ℝ → List ℝ → ℝ →
    List ℝ × List ℝ × List ℝ × List ℝ × List ℝ × List ℝ
  G_using_S : List ℝ → List ℝ → List ℝ → List ℝ → ℝ →
    List ℝ × List ℝ × List ℝ × List ℝ × List ℝ × List ℝ
  GK_using_S : List ℝ → List ℝ → List ℝ → List ℝ → ℝ →
    List ℝ × List ℝ × List ℝ × List ℝ × List ℝ × List ℝ

/-- The three reciprocal-to-real entry points of class `Transformer` used by
`apply_lorch`, left abstract for the same reason; argument order `(q, sq, r)`,
returning `(r, gr)`. -/
structure TransformerOps where
  S_to_g : List ℝ → List ℝ → List ℝ → List ℝ × List ℝ
  S_to_G : List ℝ → List ℝ → List ℝ → List ℝ × List ℝ
  S_to_GK : List ℝ → List ℝ → List ℝ → List ℝ × List ℝ

/-- `PyStoG.fourier_filter` (src/pystog/pystog.py lines 231-269), with the raise
embedded as `Except.error`: dispatch on `self.real_space_function`; the unknown
tag raises before any column is added or file written, so the error carries no
new state.  On success it returns the updated master dataframes, the list of
files written (`write_out_ft`, `write_out_ft_sq`, `write_out_ft_gr`) and the
`(q, sq, r, gr)` value the method returns.  Column titles are the ones set in
`__init__`. -/
def fourier_filter (real_space_function stem_name : String) (filt : FourierFilterOps)
    (r gr q sq : List ℝ) (cutoff : ℝ) (df_sq df_gr : DataFrame) :
    Except String (DataFrame × DataFrame × List String ×
      (List ℝ × List ℝ × List ℝ × List ℝ)) :=
  match (if real_space_function = "g(r)" then some (filt.g_using_S r gr q sq cutoff)
    else if real_space_function = "G(r)" then some (filt.G_using_S r gr q sq cutoff)
    else if real_space_function = "GK(r)" then some (filt.GK_using_S r gr q sq cutoff)
    else none) with
  | none => Except.error ("ERROR: Unknown real space function " ++ real_space_function)
  | some (q_ft, sq_ft, q2, sq2, r2, gr2) =>
    let df_sq1 := add_to_dataframe q_ft sq_ft df_sq "FT term"
    let df_sq2 := add_to_dataframe q2 sq2 df_sq1 "S(Q) FT"
    let df_gr1 := add_to_dataframe r2 gr2 df_gr (real_space_function ++ " FT")
    Except.ok (df_sq2, df_gr1,
      ["ft.dat", stem_name ++ "_ft.sq", stem_name ++ "_ft.gr"], (q2, sq2, r2, gr2))

/-- `PyStoG.apply_lorch` (src/pystog/pystog.py lines 271-289), with the raise
embedded as `Except.error`: same dispatch on `self.real_space_function`; on
success returns the updated real-space master dataframe, the file written by
`write_out_lorched_gr`, and the `(r, gr_lorch)` value returned. -/
def apply_lorch (real_space_function stem_name : String) (tr : TransformerOps)
    (q sq r : List ℝ) (df_gr : DataFrame) :
    Except String (DataFrame × List String × (List ℝ × List ℝ)) :=
  match (if real_space_function = "g(r)" then some (tr.S_to_g q sq r)
    else if real_space_function = "G(r)" then some (tr.S_to_G q sq r)
    else if real_space_function = "GK(r)" then some (tr.S_to_GK q sq r)
    else none) with
  | none => Except.error ("ERROR: Unknown real space function " ++ real_space_function)
  | some res =>
    let df_gr1 := add_to_dataframe res.1 res.2 df_gr
      (real_space_function ++ " FT Lorched")
    Except.ok (df_gr1, [stem_name ++ "_ft_lorched.gr"], res)

/-- Concrete instance of the abstract filter operations, used by the witness. -/
def trivialFilterOps : FourierFilterOps :=
  ⟨fun _ _ _ _ _ => ([], [], [], [], [], []),
   fun _ _ _ _ _ => ([], [], [], [], [], []),
   fun _ _ _ _ _ => ([], [], [], [], [], [])⟩

/-- Concrete instance of the abstract transformer operations, used by the witness. -/
def trivialTransformerOps : TransformerOps :=
  ⟨fun _ _ _ => ([], []), fun _ _ _ => ([], []), fun _ _ _ => ([], [])⟩

/-- `PyStoG.offset(data, offset)` (src/pystog/pystog.py lines 168-170). -/
noncomputable def offset (data : List ℝ) (off : ℝ) : List ℝ :=
  data.map (fun v => v + off)

/-- `PyStoG.scale(data, scale)` (src/pystog/pystog.py lines 172-174). -/
noncomputable def scale (data : List ℝ) (s : ℝ) : List ℝ :=
  data.map (fun v => s * v)

/-- `PyStoG.apply_scales_and_offset(x, y, yscale, yoffset, xoffset)`
(src/pystog/pystog.py lines 145-149): scales `y`, then offsets `y`, then offsets
`x`, returning the pair `(x, y)`. -/
noncomputable def apply_scales_and_offset (x y : List ℝ) (yscale yoff xoff : ℝ) :
    List ℝ × List ℝ :=
  (offset x xoff, offset (scale y yscale) yoff)

/-- `PyStoG.merge_data` (src/pystog/pystog.py lines 151-166) on aligned complete
columns: the merged value sequence is `df_individuals.mean(axis=1)` rowwise (sum
of the per-file column entries divided by the number of columns), then
`apply_scales_and_offset` is applied with the merging scale and offset and an `x`
offset of `0.0`.  Returns `(index, merged values)` of the master column. -/
noncomputable def merge_data (index : List ℝ) (cols : List (List ℝ))
    (yscale yoff : ℝ) : List ℝ × List ℝ :=
  let y := (List.range index.length).map
    (fun i => (cols.map (fun c => c.getD i 0)).sum / cols.length)
  apply_scales_and_offset index y yscale yoff 0

/-- The default of the `limit` keyword argument of `PyStoG.lowR_mean_square`. -/
noncomputable def lowR_limit_default : ℝ := 1.01

/-- `PyStoG.lowR_mean_square(dr, gofr, limit)` (src/pystog/pystog.py lines
295-299): selects the `gofr` entries whose radius satisfies `dr <= limit`
(numpy boolean-mask indexing over equal-length arrays), squares them, sums the
squares (the variable is named `average` but no division happens), and returns
the square root of that sum. -/
noncomputable def lowR_mean_square (dr gofr : List ℝ) (limit : ℝ) : ℝ :=
  let sel := ((dr.zip gofr).filter (fun p => p.1 ≤ limit)).map (fun p => p.2 * p.2)
  Real.sqrt sel.sum

/-- `PyStoG.get_lowR_mean_square` (src/pystog/pystog.py lines 291-293): calls
`lowR_mean_square` with the default limit. -/
noncomputable def get_lowR_mean_square (dr gofr : List ℝ) : ℝ :=
  lowR_mean_square dr gofr lowR_limit_default

/-- The value computation of `PyStoG.add_keen_fq` (src/pystog/pystog.py line
302): `fq_rmc = bcoh_sqrd * (sq - 1)` elementwise. -/
noncomputable def keen_fq (bcoh_sqrd : ℝ) (sq : List ℝ) : List ℝ :=
  sq.map (fun s => bcoh_sqrd * (s - 1))

/-- Modelled from the spec: `Converter.FK_to_S` of the missing transformer module;
"FK(Q) to S(Q): S = FK / bcoh_sqrd + 1", applied pointwise. -/
noncomputable def FK_to_S (bcoh_sqrd : ℝ) (fk : List ℝ) : List ℝ :=
  fk.map (fun f => f / bcoh_sqrd + 1)

/-- Modelled from the spec: `Transformer.apply_cropping(X, Y, min, max)` of the
missing transformer module; "returns the contiguous sub-range of (X, Y) with
min <= X <= max; fails with EmptyRangeError if no points satisfy the bound, or if
min > max". -/
noncomputable def apply_cropping (X Y : List ℝ) (xmin xmax : ℝ) :
    Except String (List ℝ × List ℝ) :=
  let pairs := (X.zip Y).filter (fun p => xmin ≤ p.1 ∧ p.1 ≤ xmax)
  if xmin > xmax ∨ pairs = [] then Except.error "EmptyRangeError"
  else Except.ok (pairs.map Prod.fst, pairs.map Prod.snd)

/-- Modelled from the spec: the pointwise relation computed by
`Converter.F_to_S` of the missing transformer module; "F(Q) to S(Q):
S = F/Q + 1, defined only for Q different from 0". -/
noncomputable def F_to_S_point (Q F : ℝ) : ℝ := F / Q + 1

/-- Modelled from the spec: the inverse pointwise relation "S to F via
F = Q (S - 1)". -/
noncomputable def S_to_F_point (Q S : ℝ) : ℝ := Q * (S - 1)

/-- Modelled from the spec: the Lorch damping window of the missing transformer
module, "L(Q) = sin(pi Q / Qmax) / (pi Q / Qmax)", with `L 0` taken as the limit
value `1`. -/
noncomputable def lorchWindow (qmax Q : ℝ) : ℝ :=
  if Q = 0 then 1
  else Real.sin (Real.pi * Q / qmax) / (Real.pi * Q / qmax)

lemma foldl_min_eq (xs : List ℝ) (x : ℝ) (h : ∀ y ∈ xs, x ≤ y) :
    xs.foldl min x = x := by
  induction xs generalizing x with
  | nil => rfl
  | cons y ys ih =>
    have hxy : x ≤ y := h y (List.mem_cons_self y ys)
    have : min x y = x := min_eq_left hxy
    simp only [List.foldl_cons, this]
    exact ih x fun z hz => h z (List.mem_cons_of_mem y hz)

lemma listMin_of_sorted (q : List ℝ) (hq : q.Sorted (· < ·)) (hne : q ≠ []) :
    listMin q = q.headD 0 := by
  cases q with
  | nil => exact absurd rfl hne
  | cons x xs =>
    simp only [listMin, List.headD_cons]
    exact foldl_min_eq xs x fun y hy => le_of_lt ((List.pairwise_cons.mp hq).1 y hy)

lemma addCorrections_getD (f : ℝ → ℝ) (gofr dr : List ℝ) (i : ℕ)
    (h1 : i < gofr.length) (h2 : i < dr.length) :
    (addCorrections f gofr dr).getD i 0 = gofr.getD i 0 + f (dr.getD i 0) := by
  induction gofr generalizing dr i with
  | nil => simp at h1
  | cons g gs ih =>
    cases dr with
    | nil => simp at h2
    | cons r rs =>
      cases i with
      | zero => simp [addCorrections]
      | succ n =>
        simp only [addCorrections, List.getD_cons_succ]
        exact ih rs n (by simpa using h1) (by simpa using h2)

lemma correction_at_false_eq (qmin qmax y0 r : ℝ) :
    correction_at qmin qmax y0 false r = claimCorrectionNonLorch qmin y0 r := by
  simp only [correction_at, claimCorrectionNonLorch, Bool.false_eq_true, if_false]
  ring

lemma correction_at_true_eq (qmin qmax y0 r : ℝ) :
    correction_at qmin qmax y0 true r = claimCorrectionLorch qmin qmax y0 r := by
  simp only [correction_at, claimCorrectionLorch, if_true]
  ring

/-- C1: for a strictly increasing positive grid `q` (so `min q` is its first
element), a nonzero output radius `r = dr[i]`, and `lorch = false`, the correction
added by `qmin_correction` at `r` is `(2/pi) * (F1 * Y_in(Xmin) / Xmin - F2)` with
`v = Xmin * r`, `F1 = (2 v sin v - (v^2 - 2) cos v - 2)/r^3` and
`F2 = (sin v - v cos v)/r^2`, where `Xmin = min q` and `Y_in(Xmin) = sofq[0]`; the
returned sequence is the input `gofr` plus exactly this correction, pointwise. -/
theorem C1_qmin_correction_nonlorch (q sofq dr gofr : List ℝ) (i : ℕ)
    (hq : q.Sorted (· < ·)) (hne : q ≠ []) (hpos : ∀ x ∈ q, 0 < x)
    (hi : i < gofr.length) (hi' : i < dr.length) (hr : dr.getD i 0 ≠ 0) :
    listMin q = q.headD 0 ∧
    (qmin_correction q sofq dr gofr false).getD i 0 =
      gofr.getD i 0 +
        claimCorrectionNonLorch (listMin q) (sofq.headD 0) (dr.getD i 0) := by
  refine ⟨listMin_of_sorted q hq hne, ?_⟩
  rw [qmin_correction, addCorrections_getD _ _ _ _ hi hi', correction_at_false_eq]

/-- Witness for C1 at `q = [1]`, `sofq = [0]`, `dr = [1]`, `gofr = [0]`, `i = 0`. -/
theorem C1_qmin_correction_nonlorch_witness :
    ([(1 : ℝ)].Sorted (· < ·)) ∧ ([(1 : ℝ)] ≠ []) ∧ (∀ x ∈ [(1 : ℝ)], 0 < x) ∧
      0 < ([(0 : ℝ)]).length ∧ 0 < ([(1 : ℝ)]).length ∧ ([(1 : ℝ)]).getD 0 0 ≠ 0 ∧
      (listMin [(1 : ℝ)] = [(1 : ℝ)].headD 0 ∧
        (qmin_correction [1] [0] [1] [0] false).getD 0 0 =
          ([(0 : ℝ)]).getD 0 0 +
            claimCorrectionNonLorch (listMin [(1 : ℝ)]) (([(0 : ℝ)]).headD 0)
              (([(1 : ℝ)]).getD 0 0)) :=
  ⟨by simp, by simp, by simp, by simp, by simp, by simp,
    C1_qmin_correction_nonlorch [1] [0] [1] [0] 0 (by simp) (by simp) (by simp)
      (by simp) (by simp) (by simp)⟩

/-- C2: for a strictly increasing positive grid `q` with `Xmin = min q` and
`Xmax = max q`, and an output radius `r = dr[i]` with `r` different from
`pi/Xmax` and `-pi/Xmax`, when `lorch = true` the correction added by
`qmin_correction` at `r` is `(2/pi) * (F1 * Y_in(Xmin) / Xmin - F2)` where, with
`vm = Xmin*(r - pi/Xmax)` and `vp = Xmin*(r + pi/Xmax)`,
`F1 = (((vm sin vm + cos vm - 1)/(r - pi/Xmax)^2) - ((vp sin vp + cos vp - 1)/(r + pi/Xmax)^2))/(2 pi/Xmax)`
and `F2 = ((sin vm)/(r - pi/Xmax) - (sin vp)/(r + pi/Xmax))/(2 pi/Xmax)`: two
analogous terms scaled by `1/(2 pi/Xmax)` before the same `(2/pi)` normalization
as the non-Lorch branch, added pointwise to the input `gofr`. -/
theorem C2_qmin_correction_lorch (q sofq dr gofr : List ℝ) (i : ℕ)
    (hq : q.Sorted (· < ·)) (hne : q ≠ []) (hpos : ∀ x ∈ q, 0 < x)
    (hi : i < gofr.length) (hi' : i < dr.length)
    (hrm : dr.getD i 0 ≠ Real.pi / listMax q)
    (hrp : dr.getD i 0 ≠ -(Real.pi / listMax q)) :
    listMin q = q.headD 0 ∧
    (qmin_correction q sofq dr gofr true).getD i 0 =
      gofr.getD i 0 +
        claimCorrectionLorch (listMin q) (listMax q) (sofq.headD 0) (dr.getD i 0) := by
  refine ⟨listMin_of_sorted q hq hne, ?_⟩
  rw [qmin_correction, addCorrections_getD _ _ _ _ hi hi', correction_at_true_eq]

/-- Witness for C2 at `q = [1]`, `sofq = [0]`, `dr = [1]`, `gofr = [0]`, `i = 0`
(here `pi/Xmax = pi` and `1 < pi`, so both side conditions hold). -/
theorem C2_qmin_correction_lorch_witness :
    ([(1 : ℝ)].Sorted (· < ·)) ∧ ([(1 : ℝ)] ≠ []) ∧ (∀ x ∈ [(1 : ℝ)], 0 < x) ∧
      0 < ([(0 : ℝ)]).length ∧ 0 < ([(1 : ℝ)]).length ∧
      ([(1 : ℝ)]).getD 0 0 ≠ Real.pi / listMax [(1 : ℝ)] ∧
      ([(1 : ℝ)]).getD 0 0 ≠ -(Real.pi / listMax [(1 : ℝ)]) ∧
      (listMin [(1 : ℝ)] = [(1 : ℝ)].headD 0 ∧
        (qmin_correction [1] [0] [1] [0] true).getD 0 0 =
          ([(0 : ℝ)]).getD 0 0 +
            claimCorrectionLorch (listMin [(1 : ℝ)]) (listMax [(1 : ℝ)])
              (([(0 : ℝ)]).headD 0) (([(1 : ℝ)]).getD 0 0)) :=
  ⟨by simp, by simp, by simp, by simp, by simp,
    by
      simp only [List.getD_cons_zero, listMax, List.foldl_nil, div_one]
      exact ne_of_lt (by linarith [Real.pi_gt_three]),
    by
      simp only [List.getD_cons_zero, listMax, List.foldl_nil, div_one]
      have := Real.pi_pos
      intro h; linarith [h],
    C2_qmin_correction_lorch [1] [0] [1] [0] 0 (by simp) (by simp) (by simp)
      (by simp) (by simp)
      (by
        simp only [List.getD_cons_zero, listMax, List.foldl_nil, div_one]
        exact ne_of_lt (by linarith [Real.pi_gt_three]))
      (by
        simp only [List.getD_cons_zero, listMax, List.foldl_nil, div_one]
        have := Real.pi_pos
        intro h; linarith [h])⟩

/-- C3 counterexample: the claim that `qmin_correction` leaves the array the caller
passed as `gofr` unchanged is false.  At `q = [1]`, `sofq = [0]`, `dr = [pi]`,
`gofr = [0]`, `lorch = false`, the caller array holds `[-2/pi^2]`, not `[0]`,
after the call: `gofr += correction` is an in-place numpy update. -/
theorem C3_gofr_mutation_counterexample :
    (qmin_correction_call [1] [0] [Real.pi] [0] false).1 ≠ [0] := by
  intro h
  simp only [qmin_correction_call, qmin_correction, addCorrections, listMin, listMax,
    correction_at, List.foldl_nil, List.headD_cons, Bool.false_eq_true, if_false,
    List.cons.injEq, and_true] at h
  rw [one_mul, Real.sin_pi, Real.cos_pi] at h
  have hpi := Real.pi_ne_zero
  field_simp at h

/-- C3 amended: `qmin_correction` does mutate the caller array `gofr` in place; the
caller array after the call and the returned sequence are the same array and hold
the same values, namely the input values plus the correction, pointwise. -/
theorem C3_gofr_mutation_amended (q sofq dr gofr : List ℝ) (lorch : Bool) (i : ℕ)
    (hi : i < gofr.length) (hi' : i < dr.length) :
    (qmin_correction_call q sofq dr gofr lorch).1 =
      (qmin_correction_call q sofq dr gofr lorch).2 ∧
    (qmin_correction_call q sofq dr gofr lorch).1.getD i 0 =
      gofr.getD i 0 +
        correction_at (listMin q) (listMax q) (sofq.headD 0) lorch (dr.getD i 0) :=
  ⟨rfl, addCorrections_getD _ _ _ _ hi hi'⟩

/-- Witness for the amended C3 at `q = [1]`, `sofq = [0]`, `dr = [1]`, `gofr = [0]`,
`i = 0`, `lorch = false`. -/
theorem C3_gofr_mutation_amended_witness :
    0 < ([(0 : ℝ)]).length ∧ 0 < ([(1 : ℝ)]).length ∧
      ((qmin_correction_call [1] [0] [1] [0] false).1 =
        (qmin_correction_call [1] [0] [1] [0] false).2 ∧
      (qmin_correction_call [1] [0] [1] [0] false).1.getD 0 0 =
        ([(0 : ℝ)]).getD 0 0 +
          correction_at (listMin [(1 : ℝ)]) (listMax [(1 : ℝ)]) (([(0 : ℝ)]).headD 0)
            false (([(1 : ℝ)]).getD 0 0)) :=
  ⟨by simp, by simp,
    C3_gofr_mutation_amended [1] [0] [1] [0] false 0 (by simp) (by simp)⟩

/-- C4: for every real-space function tag other than "g(r)", "G(r)" and "GK(r)",
both `fourier_filter` and `apply_lorch` raise the unknown-function error and
produce no output: no column is added to the master dataframes and no file is
written, whatever the (abstract) filter and transformer operations do. -/
theorem C4_unknown_real_space_function (rsf : String)
    (h1 : rsf ≠ "g(r)") (h2 : rsf ≠ "G(r)") (h3 : rsf ≠ "GK(r)")
    (stem : String) (filt : FourierFilterOps) (tr : TransformerOps)
    (r gr q sq : List ℝ) (cutoff : ℝ) (df_sq df_gr : DataFrame) :
    fourier_filter rsf stem filt r gr q sq cutoff df_sq df_gr =
      Except.error ("ERROR: Unknown real space function " ++ rsf) ∧
    apply_lorch rsf stem tr q sq r df_gr =
      Except.error ("ERROR: Unknown real space function " ++ rsf) := by
  constructor <;> simp [fourier_filter, apply_lorch, h1, h2, h3]

/-- Witness for C4 with the unknown tag "D(r)". -/
theorem C4_unknown_real_space_function_witness :
    ("D(r)" ≠ "g(r)") ∧ ("D(r)" ≠ "G(r)") ∧ ("D(r)" ≠ "GK(r)") ∧
    (fourier_filter "D(r)" "merged" trivialFilterOps [] [] [] [] 0 ⟨[]⟩ ⟨[]⟩ =
      Except.error ("ERROR: Unknown real space function " ++ "D(r)") ∧
    apply_lorch "D(r)" "merged" trivialTransformerOps [] [] [] ⟨[]⟩ =
      Except.error ("ERROR: Unknown real space function " ++ "D(r)")) :=
  ⟨by decide, by decide, by decide,
    C4_unknown_real_space_function "D(r)" (by decide) (by decide) (by decide)
      "merged" trivialFilterOps trivialTransformerOps [] [] [] [] 0 ⟨[]⟩ ⟨[]⟩⟩

/-- C6: the Keen post-processing `FK = bcoh_sqrd * (sq - 1)` of `add_keen_fq` and
the FK(Q)-to-S(Q) relation `S = FK / bcoh_sqrd + 1` are mutually inverse: for
every positive `bcoh_sqrd`, applying the first and then the second returns the
original value sequence pointwise. -/
theorem C6_keen_fq_roundtrip (bcoh_sqrd : ℝ) (h : 0 < bcoh_sqrd) (sq : List ℝ) :
    FK_to_S bcoh_sqrd (keen_fq bcoh_sqrd sq) = sq := by
  have hne : bcoh_sqrd ≠ 0 := ne_of_gt h
  simp only [FK_to_S, keen_fq, List.map_map]
  have hfun : ((fun f : ℝ => f / bcoh_sqrd + 1) ∘ fun s : ℝ => bcoh_sqrd * (s - 1)) =
      id := by
    funext s
    simp only [Function.comp_apply, id_eq]
    field_simp
  rw [hfun, List.map_id]

/-- Witness for C6 at `bcoh_sqrd = 1`, `sq = [2]`. -/
theorem C6_keen_fq_roundtrip_witness :
    (0 : ℝ) < 1 ∧ FK_to_S 1 (keen_fq 1 [2]) = [2] :=
  ⟨by norm_num, C6_keen_fq_roundtrip 1 (by norm_num) [2]⟩

/-- C8: the F(Q)/S(Q) affine relations are mutually inverse away from `Q = 0`: for
every `Q` different from zero, `F_to_S_point Q (Q * (S - 1)) = S` for every `S`,
and `Q * (F_to_S_point Q F - 1) = F` for every `F`. -/
theorem C8_F_S_affine_inverse (Q S F : ℝ) (hQ : Q ≠ 0) :
    F_to_S_point Q (S_to_F_point Q S) = S ∧
    S_to_F_point Q (F_to_S_point Q F) = F := by
  constructor
  · simp only [F_to_S_point, S_to_F_point]
    field_simp
  · simp only [F_to_S_point, S_to_F_point]
    field_simp

/-- Witness for C8 at `Q = 2`, `S = 5`, `F = 3`. -/
theorem C8_F_S_affine_inverse_witness :
    (2 : ℝ) ≠ 0 ∧ (F_to_S_point 2 (S_to_F_point 2 5) = 5 ∧
      S_to_F_point 2 (F_to_S_point 2 3) = 3) :=
  ⟨by norm_num, C8_F_S_affine_inverse 2 5 3 (by norm_num)⟩

/-- C9: for every `qmax > 0` and `Q` in `[0, qmax]`, the Lorch window satisfies
`0 <= L(Q) <= 1` (with `L 0` its limit value `1`), and `L qmax = 0`. -/
theorem C9_lorch_window_bounds (qmax Q : ℝ) (hqmax : 0 < qmax)
    (h0 : 0 ≤ Q) (h1 : Q ≤ qmax) :
    (0 ≤ lorchWindow qmax Q ∧ lorchWindow qmax Q ≤ 1) ∧
      lorchWindow qmax qmax = 0 := by
  have hqne : qmax ≠ 0 := ne_of_gt hqmax
  constructor
  · rcases eq_or_lt_of_le h0 with hQ0 | hQ0
    · rw [lorchWindow, if_pos hQ0.symm]
      exact ⟨zero_le_one, le_refl 1⟩
    · rw [lorchWindow, if_neg (ne_of_gt hQ0)]
      set x := Real.pi * Q / qmax with hx
      have hxpos : 0 < x := by
        apply div_pos (mul_pos Real.pi_pos hQ0) hqmax
      have hxle : x ≤ Real.pi := by
        rw [hx, div_le_iff₀ hqmax]
        have := Real.pi_pos
        nlinarith
      constructor
      · exact div_nonneg (Real.sin_nonneg_of_nonneg_of_le_pi (le_of_lt hxpos) hxle)
          (le_of_lt hxpos)
      · rw [div_le_one hxpos]
        exact le_of_lt (Real.sin_lt hxpos)
  · rw [lorchWindow, if_neg hqne, mul_div_assoc, div_self hqne, mul_one,
      Real.sin_pi, zero_div]

/-- Witness for C9 at `qmax = 1`, `Q = 1`. -/
theorem C9_lorch_window_bounds_witness :
    (0 : ℝ) < 1 ∧ (0 : ℝ) ≤ 1 ∧ (1 : ℝ) ≤ 1 ∧
    ((0 ≤ lorchWindow 1 1 ∧ lorchWindow 1 1 ≤ 1) ∧ lorchWindow 1 1 = 0) :=
  ⟨by norm_num, by norm_num, by norm_num,
    C9_lorch_window_bounds 1 1 (by norm_num) (by norm_num) (by norm_num)⟩

lemma getD_of_lt {α : Type} (l : List α) (i : ℕ) (d : α) (h : i < l.length) :
    l.getD i d = l.get ⟨i, h⟩ := by
  simp [List.getD_eq_getElem?_getD, List.getElem?_eq_getElem h]

/-- C7: `merge_data` sets the merged curve to the pointwise arithmetic mean of the
individual columns and then applies the merging correction as
`y = Scale * y + Offset` (scale before offset), leaving the index unchanged. -/
theorem C7_merge_data_mean_scale_offset (index : List ℝ) (cols : List (List ℝ))
    (yscale yoff : ℝ) (i : ℕ) (hcols : cols ≠ []) (hi : i < index.length) :
    (merge_data index cols yscale yoff).1 = index ∧
    (merge_data index cols yscale yoff).2.getD i 0 =
      yscale * ((cols.map (fun c => c.getD i 0)).sum / cols.length) + yoff := by
  constructor
  · simp [merge_data, apply_scales_and_offset, offset]
  · simp only [merge_data, apply_scales_and_offset, offset, scale, List.map_map]
    rw [getD_of_lt _ i _ (by simpa using hi), List.get_map]
    simp [List.get_range]

/-- Witness for C7 at `index = [1, 2]`, `cols = [[1, 3], [3, 5]]`, scale `2`,
offset `1`, `i = 0`. -/
theorem C7_merge_data_mean_scale_offset_witness :
    ([[(1 : ℝ), 3], [3, 5]] ≠ ([] : List (List ℝ))) ∧ 0 < ([(1 : ℝ), 2]).length ∧
    ((merge_data [1, 2] [[1, 3], [3, 5]] 2 1).1 = [1, 2] ∧
      (merge_data [1, 2] [[1, 3], [3, 5]] 2 1).2.getD 0 0 =
        2 * ((([[(1 : ℝ), 3], [3, 5]]).map (fun c => c.getD 0 0)).sum /
          ([[(1 : ℝ), 3], [3, 5]]).length) + 1) :=
  ⟨by simp, by simp,
    C7_merge_data_mean_scale_offset [1, 2] [[1, 3], [3, 5]] 2 1 0 (by simp) (by simp)⟩

lemma zip_filter_sq_sum (dr : List ℝ) (limit : ℝ) :
    ∀ gofr : List ℝ, dr.length = gofr.length →
    (((dr.zip gofr).filter (fun p => p.1 ≤ limit)).map (fun p => p.2 * p.2)).sum =
      ∑ i in Finset.range dr.length,
        if dr.getD i 0 ≤ limit then gofr.getD i 0 * gofr.getD i 0 else 0 := by
  induction dr with
  | nil => intro gofr h; simp
  | cons d ds ih =>
    intro gofr h
    cases gofr with
    | nil => simp at h
    | cons g gs =>
      rw [List.length_cons, Finset.sum_range_succ']
      simp only [List.getD_cons_succ, List.getD_cons_zero, List.zip_cons_cons]
      by_cases hd : d ≤ limit
      · rw [List.filter_cons_of_pos (by simpa using hd)]
        simp only [List.map_cons, List.sum_cons]
        rw [ih gs (by simpa using h), if_pos hd]
        ring
      · rw [List.filter_cons_of_neg (by simpa using hd)]
        rw [ih gs (by simpa using h), if_neg hd]
        ring

/-- C10: for equal-length `dr` and `gofr`, `lowR_mean_square` returns the square
root of the sum (not the mean, despite the name) of the squares of the `gofr`
values at radii with `dr[i] <= limit`; it returns `0` when no radius satisfies
the bound; and `get_lowR_mean_square` uses the default limit `1.01`. -/
theorem C10_lowR_mean_square_sum (dr gofr : List ℝ) (limit : ℝ)
    (h : dr.length = gofr.length) :
    lowR_mean_square dr gofr limit =
      Real.sqrt (∑ i in Finset.range dr.length,
        if dr.getD i 0 ≤ limit then gofr.getD i 0 * gofr.getD i 0 else 0) ∧
    ((∀ i < dr.length, ¬ dr.getD i 0 ≤ limit) → lowR_mean_square dr gofr limit = 0) ∧
    get_lowR_mean_square dr gofr = lowR_mean_square dr gofr 1.01 := by
  refine ⟨?_, ?_, rfl⟩
  · rw [lowR_mean_square, zip_filter_sq_sum dr limit gofr h]
  · intro hnone
    rw [lowR_mean_square, zip_filter_sq_sum dr limit gofr h]
    have hall : ∀ i ∈ Finset.range dr.length,
        (if dr.getD i 0 ≤ limit then gofr.getD i 0 * gofr.getD i 0 else 0) = 0 := by
      intro i hi
      rw [if_neg (hnone i (Finset.mem_range.mp hi))]
    rw [Finset.sum_eq_zero hall, Real.sqrt_zero]

/-- Witness for C10 at `dr = [1, 2]`, `gofr = [3, 4]`, `limit = 1.01`. -/
theorem C10_lowR_mean_square_sum_witness :
    ([(1 : ℝ), 2]).length = ([(3 : ℝ), 4]).length ∧
    (lowR_mean_square [1, 2] [3, 4] 1.01 =
      Real.sqrt (∑ i in Finset.range ([(1 : ℝ), 2]).length,
        if ([(1 : ℝ), 2]).getD i 0 ≤ 1.01 then
          ([(3 : ℝ), 4]).getD i 0 * ([(3 : ℝ), 4]).getD i 0 else 0) ∧
    ((∀ i < ([(1 : ℝ), 2]).length, ¬ ([(1 : ℝ), 2]).getD i 0 ≤ 1.01) →
      lowR_mean_square [1, 2] [3, 4] 1.01 = 0) ∧
    get_lowR_mean_square [1, 2] [3, 4] = lowR_mean_square [1, 2] [3, 4] 1.01) :=
  ⟨by simp, C10_lowR_mean_square_sum [1, 2] [3, 4] 1.01 (by simp)⟩

lemma zip_filter_fst {α β : Type} (P : α → Bool) :
    ∀ (X : List α) (Y : List β), X.length = Y.length →
    ((X.zip Y).filter (fun p => P p.1)).map Prod.fst = X.filter P := by
  intro X
  induction X with
  | nil => intro Y h; simp
  | cons x xs ih =>
    intro Y h
    cases Y with
    | nil => simp at h
    | cons y ys =>
      cases hP : P x with
      | true => simp [List.filter_cons, hP, ih ys (by simpa using h)]
      | false => simp [List.filter_cons, hP, ih ys (by simpa using h)]

lemma zip_all_fst {α β : Type} (P : α → Bool) :
    ∀ (X : List α) (Y : List β), X.length = Y.length →
    ((∀ p ∈ X.zip Y, ¬ P p.1 = true) ↔ ∀ x ∈ X, ¬ P x = true) := by
  intro X
  induction X with
  | nil => intro Y h; simp
  | cons x xs ih =>
    intro Y h
    cases Y with
    | nil => simp at h
    | cons y ys =>
      simp only [List.zip_cons_cons, List.mem_cons, forall_eq_or_imp]
      rw [ih ys (by simpa using h)]

lemma zip_map_fst_snd_self {α β : Type} (l : List (α × β)) :
    (l.map Prod.fst).zip (l.map Prod.snd) = l := by
  induction l with
  | nil => rfl
  | cons p ps ih => simp [ih]

/-- The model of `apply_cropping` reproduces the characterization test
`TestTransformerBase.test_apply_cropping` (src/tests/test_transformer.py lines
68-73): cropping `linspace(0.5, 1.0, 11)` to `[0.6, 0.7]` keeps exactly the three
points `0.6, 0.65, 0.7` with their paired values. -/
lemma apply_cropping_matches_test :
    apply_cropping [0.5, 0.55, 0.6, 0.65, 0.7, 0.75, 0.8, 0.85, 0.9, 0.95, 1.0]
      [4.5, 4.55, 4.6, 4.65, 4.7, 4.75, 4.8, 4.85, 4.9, 4.95, 5.0] 0.6 0.7 =
    Except.ok ([0.6, 0.65, 0.7], [4.6, 4.65, 4.7]) := by
  rw [apply_cropping]
  norm_num [List.filter_cons]
  intro h
  cases h

/-- C5: `apply_cropping X Y min max` returns exactly the sub-range of `(X, Y)`
whose `X` values satisfy `min <= X <= max` (both bounds inclusive, points equal
to a bound retained), and fails with `EmptyRangeError` exactly when no point
satisfies the bounds or `min > max`. -/
theorem C5_apply_cropping_range (X Y : List ℝ) (xmin xmax : ℝ)
    (hlen : X.length = Y.length) :
    (apply_cropping X Y xmin xmax = Except.error "EmptyRangeError" ↔
      xmin > xmax ∨ ∀ x ∈ X, ¬(xmin ≤ x ∧ x ≤ xmax)) ∧
    (∀ Xc Yc, apply_cropping X Y xmin xmax = Except.ok (Xc, Yc) →
      Xc = X.filter (fun x => xmin ≤ x ∧ x ≤ xmax) ∧
      Xc.zip Yc = (X.zip Y).filter (fun p => xmin ≤ p.1 ∧ p.1 ≤ xmax)) := by
  have hnil : ((X.zip Y).filter (fun p => decide (xmin ≤ p.1 ∧ p.1 ≤ xmax)) = []) ↔
      ∀ x ∈ X, ¬(xmin ≤ x ∧ x ≤ xmax) := by
    rw [List.filter_eq_nil_iff]
    rw [zip_all_fst (fun x => decide (xmin ≤ x ∧ x ≤ xmax)) X Y hlen]
    simp only [decide_eq_true_eq]
  constructor
  · rw [apply_cropping]
    by_cases hc : xmin > xmax ∨
        (X.zip Y).filter (fun p => decide (xmin ≤ p.1 ∧ p.1 ≤ xmax)) = []
    · rw [if_pos hc]
      simp only [true_iff]
      rcases hc with hc | hc
      · exact Or.inl hc
      · exact Or.inr (hnil.mp hc)
    · rw [if_neg hc]
      constructor
      · intro h
        exact absurd h (by simp)
      · intro h
        rcases h with h | h
        · exact absurd (Or.inl h) hc
        · exact absurd (Or.inr (hnil.mpr h)) hc
  · intro Xc Yc hok
    rw [apply_cropping] at hok
    by_cases hc : xmin > xmax ∨
        (X.zip Y).filter (fun p => decide (xmin ≤ p.1 ∧ p.1 ≤ xmax)) = []
    · rw [if_pos hc] at hok
      exact absurd hok (by simp)
    · rw [if_neg hc] at hok
      simp only [Except.ok.injEq, Prod.mk.injEq] at hok
      obtain ⟨hX, hY⟩ := hok
      constructor
      · rw [← hX]
        exact zip_filter_fst (fun x => decide (xmin ≤ x ∧ x ≤ xmax)) X Y hlen
      · rw [← hX, ← hY, zip_map_fst_snd_self]

/-- Witness for C5 at `X = [1]`, `Y = [2]`, bounds `[0, 2]`. -/
theorem C5_apply_cropping_range_witness :
    ([(1 : ℝ)]).length = ([(2 : ℝ)]).length ∧
    ((apply_cropping [1] [2] 0 2 = Except.error "EmptyRangeError" ↔
      (0 : ℝ) > 2 ∨ ∀ x ∈ [(1 : ℝ)], ¬((0 : ℝ) ≤ x ∧ x ≤ 2)) ∧
    (∀ Xc Yc, apply_cropping [1] [2] 0 2 = Except.ok (Xc, Yc) →
      Xc = ([(1 : ℝ)]).filter (fun x => (0 : ℝ) ≤ x ∧ x ≤ 2) ∧
      Xc.zip Yc = (([(1 : ℝ)]).zip [(2 : ℝ)]).filter
        (fun p => (0 : ℝ) ≤ p.1 ∧ p.1 ≤ 2))) :=
  ⟨by simp, C5_apply_cropping_range [1] [2] 0 2 (by simp)⟩

end PyStoG
